import Mathlib

/-!
Shallow embedding of the kinetic-curve analysis engine of
`xCelligence_Killing_auto_analysis-Gracell.py`.

Conventions of the embedding:
* A well column of the main data table is a `List (Option ℚ)`: positions are the
  pandas row labels `0, 1, …` of `main_data_df` (a default `RangeIndex`), `none`
  models a NaN produced by `pd.to_numeric(..., errors='coerce')`.
* A pandas `Series` obtained by boolean-mask filtering keeps its original labels,
  so it is modelled as a `List (ℕ × Option ℚ)` of (label, value) pairs.
* Floats are modelled as ℚ, NaN as `none`.  The 2-decimal rounding the source
  applies before the %CV > 30 and mean ≤ 12 comparisons (`f"{x:.2f}"`, then
  re-parsed) is modelled by `round2`, rounding half to even as Python does.
* `pd.Series.idxmax` / `idxmin` return the label of the first extremal
  non-missing entry; `.loc[l:]` keeps the entries with label ≥ `l`;
  `.iloc[1:]` drops the first entry; `(s < c).any()` ignores missing entries.
-/

/-- A pandas Series with integer labels and possibly-missing rational values. -/
abbrev PSeries := List (ℕ × Option ℚ)

/-- The non-missing values of a series (in label order). -/
def svals (s : PSeries) : List ℚ := s.filterMap Prod.snd

/-- `s.notna().sum() > 0`: the series has at least one non-missing value. -/
def hasValue (s : PSeries) : Bool := !(svals s).isEmpty

/-- `s.max()` with skipna (default 0 is only read when the series is all-missing,
a case every caller guards with `hasValue`). -/
def smaxD (s : PSeries) : ℚ := ((svals s).max?).getD 0

/-- `s.idxmax()`: label of the first non-missing entry attaining the maximum. -/
def sidxmax (s : PSeries) : Option ℕ :=
  ((svals s).max?).bind
    (fun m => (s.find? (fun p => decide (p.2 = some m))).map Prod.fst)

/-- `s.idxmax()` with a junk default (only read under a `hasValue` guard). -/
def sidxmaxD (s : PSeries) : ℕ := (sidxmax s).getD 0

/-- `s.loc[l:]`: the entries with label ≥ `l`. -/
def slocFrom (l : ℕ) (s : PSeries) : PSeries := s.filter (fun p => decide (l ≤ p.1))

/-- `((s - c).abs()).idxmin()`: label of the first non-missing entry whose
distance to `c` is minimal; `none` models the `ValueError` pandas raises on an
all-missing series (caught by the source and turned into a `continue`). -/
def sidxminAbsDiff (c : ℚ) (s : PSeries) : Option ℕ :=
  ((s.filterMap (fun p => p.2.map (fun v => |v - c|))).min?).bind
    (fun d => (s.find? (fun p => decide (p.2.map (fun v => |v - c|) = some d))).map Prod.fst)

/-- `(s < c).any()`: some non-missing value is strictly below `c`. -/
def anyLt (c : ℚ) (s : PSeries) : Bool :=
  s.any (fun p => (p.2.map (fun v => decide (v < c))).getD false)

/-- Value of the last entry of the series (`s.iloc[-1]`), missing if the series
is empty or its last cell is NaN. -/
def lastCell (s : PSeries) : Option ℚ := (s.getLast?).bind Prod.snd

/-- `times.getD i 0`: `assay_display_df.loc[i, "Time (Hour)"]` (labels used by
the engine always lie inside the table, so the default is never read). -/
def timeAt (times : List ℚ) (i : ℕ) : ℚ := times.getD i 0

/-- `(time_series - t_ref).abs().idxmin()`: label of the sampled timestamp
closest to the effector reference, ties broken by earliest label. -/
def closest_idx (times : List ℚ) (tref : ℚ) : Option ℕ :=
  ((times.map (fun t => |t - tref|)).min?).bind
    (fun d => ((times.enum).find? (fun p => decide (|p.2 - tref| = d))).map Prod.fst)

/-- `time_series.loc[closest_idx]` (default never read for a nonempty axis). -/
def closest_time (times : List ℚ) (tref : ℚ) : ℚ :=
  match closest_idx times tref with
  | some i => timeAt times i
  | none => 0

/-- The effector window (source lines 963-973 and analogues): with a reference
time, keep the rows whose time is ≥ the sampled timestamp closest to the
reference (`after_effector_mask`); without one, use all data. Labels are kept. -/
def windowed (times : List ℚ) (values : List (Option ℚ)) (tref : Option ℚ) : PSeries :=
  match tref with
  | none => values.enum
  | some r => values.enum.filter (fun p => decide (closest_time times r ≤ timeAt times p.1))

/-- Row of the per-well summary tables (`target_data_row` / `summary_row`,
source lines 1093-1126): kill status and, only when killed, the reported
closest-to-half-max time and half-killing time. -/
structure WellRow where
  killed : Bool
  closestTime : Option ℚ
  halfKillingTime : Option ℚ
deriving DecidableEq

/-- The `idx_closest_to_target` search of the half-killing block (source lines
1029-1056): restrict to labels ≥ the label of the maximum, drop the maximum
point itself when more than one point remains, and take the label closest to
`max/2`.  `none` models a `continue` (empty post-max data) or the all-NaN
`idxmin` `ValueError` caught at line 1089. -/
def crossing_idx (s : PSeries) : Option ℕ :=
  if hasValue s then
    let dam0 := slocFrom (sidxmaxD s) s
    if 1 ≤ dam0.length then
      let dam := if 1 < dam0.length then dam0.tail else dam0
      if dam.isEmpty then none else sidxminAbsDiff (smaxD s / 2) dam
    else none
  else none

/-- The `killed_status` block (source lines 1058-1087): cells count as killed
when some value after the maximum is strictly below half the maximum — but the
source guards the search with `idx_max < len(filtered) - 1`, a comparison of a
pandas *label* with a length, kept verbatim here. -/
def killed_flag (s : PSeries) : Bool :=
  if hasValue s then
    if (sidxmaxD s : ℤ) < (s.length : ℤ) - 1 then anyLt (smaxD s / 2) (slocFrom (sidxmaxD s + 1) s)
    else false
  else false

/-- Per-well computation for a resolved assay type (CD19 or BCMA), source lines
962-1104.  `none` models a `continue` (no summary row is appended). -/
def well_calc (times : List ℚ) (values : List (Option ℚ)) (tref : Option ℚ) : Option WellRow :=
  let s := windowed times values tref
  if hasValue s then
    match crossing_idx s with
    | none => none
    | some idxC =>
      some { killed := killed_flag s,
             closestTime := if killed_flag s then some (timeAt times idxC) else none,
             halfKillingTime :=
               if killed_flag s then some (timeAt times idxC - timeAt times (sidxmaxD s)) else none }
  else some { killed := false, closestTime := none, halfKillingTime := none }

/-- Per-well computation for an unknown assay type (source lines 983-1007):
fall back to the legacy logic — find the first value equal to 1, search after it
for the value closest to the fixed target 0.5.  No `killed` computation runs
for this type (lines 1060-1087 are CD19/BCMA only), so a produced row always
has `killed = No` and absent reported times; when no value equals 1 (or the
search fails) the well is skipped with `continue` (`none`), with no marker. -/
def well_calc_unknown (times : List ℚ) (values : List (Option ℚ)) (tref : Option ℚ) : Option WellRow :=
  let s := windowed times values tref
  match (s.find? (fun p => decide (p.2 = some 1))).map Prod.fst with
  | none => none
  | some idx1 =>
    let after1 := (slocFrom idx1 s).tail
    if after1.isEmpty then none
    else
      match sidxminAbsDiff (1/2) after1 with
      | none => none
      | some _ => some { killed := false, closestTime := none, halfKillingTime := none }

/-- Recovery check for one replicate well (source lines 1441-1501): after the
well's own maximum, the value drops below the well's own half-max and the last
entry of the post-max data is strictly above that half-max. -/
def has_recovery (times : List ℚ) (values : List (Option ℚ)) (tref : Option ℚ) : Bool :=
  let s := windowed times values tref
  if hasValue s then
    let half : ℚ := smaxD s / 2
    let idxMax : ℕ := sidxmaxD s
    let dam0 := slocFrom idxMax s
    if 1 ≤ dam0.length then
      let dam := if 1 < dam0.length then dam0.tail else dam0
      if dam.isEmpty then false
      else anyLt half dam && ((lastCell dam).map (fun lv => decide (half < lv))).getD false
    else false
  else false

/-- `format_kill_summary` (source lines 359-379), over the per-well killed
booleans of one sample ("Yes"/"No" strings in the source). -/
def format_kill_summary (ks : List Bool) : String :=
  if ks.length = 0 then "N/A"
  else
    let yes := ks.countP (fun b => b)
    let no := ks.countP (fun b => !b)
    if yes = ks.length then "All Yes"
    else if no = ks.length then "All No"
    else if 0 < yes ∨ 0 < no then s!"{yes} Yes, {no} No"
    else "No kill data"

/-- `groupby("Sample Name")["Half-killing time (Hour)"].mean()` over the
already non-missing half-killing times of a sample (NaN, i.e. `none`, when no
value contributes). -/
def sampleMean (vals : List ℚ) : Option ℚ :=
  if vals.isEmpty then none else some (vals.sum / (vals.length : ℚ))

/-- `… .std()` with pandas `ddof = 1`, encoded by the sample *variance*
(std = √variance is irrational over ℚ; every use below only needs the variance:
std = 0 ↔ variance = 0, and std-vs-threshold comparisons square both sides).
`none` models the NaN pandas returns for fewer than two values. -/
def sampleVar (vals : List ℚ) : Option ℚ :=
  if vals.length < 2 then none
  else
    some (((vals.map (fun x => (x - vals.sum / (vals.length : ℚ))^2)).sum) / ((vals.length : ℚ) - 1))

/-- Square of the reported "%CV Half-killing time (Hour)" (source lines
1513-1522): `cv = std/mean*100`, then rows with `std.fillna(0) == 0` are
overwritten with 0 regardless of the mean.  `some c` means the reported float
is finite with square `c`; `none` models a non-finite float (`inf`/NaN from a
zero or missing mean with a positive std). -/
def cv_reported_sq (mean v : Option ℚ) : Option ℚ :=
  match v with
  | none => some 0
  | some V =>
    if V = 0 then some 0
    else
      match mean with
      | none => none
      | some M => if M = 0 then none else some (10000 * V / M^2)

/-- Rounding to the nearest integer, half to even — what Python's `f"{x:.2f}"`
format performs (per decimal digit position) on the value it prints. -/
def roundHalfEven (x : ℚ) : ℤ :=
  if x - ⌊x⌋ < 1/2 then ⌊x⌋
  else if 1/2 < x - ⌊x⌋ then ⌊x⌋ + 1
  else if ⌊x⌋ % 2 = 0 then ⌊x⌋ else ⌊x⌋ + 1

/-- The 2-decimal rounding of the statistics columns (source line 1530,
`f"{x:.2f}"`), whose re-parsed value feeds the `> 30` and `<= 12` comparisons
at lines 1536 and 1565. -/
def round2 (x : ℚ) : ℚ := (roundHalfEven (x * 100) : ℚ) / 100

/-- `"%CV Pass/Fail" = "Fail"` (source line 1536): the %CV column is formatted
to two decimals at line 1530, re-parsed at line 1535, and the flag tests the
*rounded* CV `> 30`.  Exact rational encoding of `round2 (100·√V / M) > 30`:
for a missing or zero std the reported CV is 0 (never Fail); a zero mean gives
CV = +∞ (Fail — `inf` survives the format/parse round trip); a negative mean
gives a negative CV (never Fail); and for 0 < M, since `round2` is monotone
with `round2 30.005 = 30` (tie to even) and every larger value rounding to
≥ 30.01 (see `round2_gt_30_iff`), the test holds iff `100·√V / M > 30.005`,
i.e. iff `(6001/20000)² · M² < V`. -/
def cv_fail (mean v : Option ℚ) : Bool :=
  match v with
  | none => false
  | some V =>
    if V = 0 then false
    else
      match mean with
      | none => false
      | some M =>
        if M = 0 then true
        else if 0 < M then decide ((6001/20000)^2 * M^2 < V) else false

/-- The per-well summary rows of one sample: wells that hit a `continue`
contribute nothing (source: rows are appended only when the calculation
completes). -/
def sampleRows (times : List ℚ) (tref : Option ℚ) (wells : List (List (Option ℚ))) : List WellRow :=
  wells.filterMap (fun v => well_calc times v tref)

/-- The half-killing times contributing to a sample's statistics (killed = No
rows carry `none` and are dropped by pandas' skipna aggregation). -/
def halfVals (rows : List WellRow) : List ℚ := rows.filterMap WellRow.halfKillingTime

/-- `"Killed below half max cell index Summary"` for one sample. -/
def killSummary (rows : List WellRow) : String := format_kill_summary (rows.map WellRow.killed)

/-- `"Sample (Valid/Invalid)" = "Valid"` (source lines 1552-1568): kill summary
"All Yes", "%CV Pass/Fail" = "Pass", mean half-killing time ≤ 12 hours — the
mean compared at line 1565 is the re-parsed 2-decimal string of line 1530,
hence `round2`; a NaN mean ("N/A") fails the comparison — and no replicate
well shows recovery. -/
def sample_valid (times : List ℚ) (tref : Option ℚ) (wells : List (List (Option ℚ))) : Bool :=
  let rows := sampleRows times tref wells
  decide (killSummary rows = "All Yes")
  && !cv_fail (sampleMean (halfVals rows)) (sampleVar (halfVals rows))
  && ((sampleMean (halfVals rows)).map (fun a => decide (round2 a ≤ 12))).getD false
  && !(wells.any (fun v => has_recovery times v tref))

/-! ### Grouping, main table and the assay-status machine -/

/-- One sample group of `extracted_treatment_data` (source lines 521-555):
name, source column ('Treatment' or 'Cell') and its well column ids. -/
structure SampleGroup where
  name : String
  source : String
  input_ids : List String
deriving DecidableEq

/-- The main numerical data table: row count, presence of the "Time (Hour)"
column, its numeric values, and the well columns by name. -/
structure MainData where
  nrows : ℕ
  hasTimeCol : Bool
  times : List ℚ
  cols : List (String × List (Option ℚ))
deriving DecidableEq

/-- `main_df[name]` for a well column (first match; `[]` never read because
callers filter on membership first). -/
def colValues (md : MainData) (n : String) : List (Option ℚ) :=
  ((md.cols.find? (fun c => decide (c.1 = n))).map Prod.snd).getD []

/-- Python `str.strip()` on the character list of a name. -/
def stripChars (l : List Char) : List Char :=
  ((l.dropWhile Char.isWhitespace).reverse.dropWhile Char.isWhitespace).reverse

/-- Case-insensitive `startswith` over character lists (Python `.upper().startswith(p)`). -/
def upperStarts (l : List Char) (p : List Char) : Bool :=
  (l.map Char.toUpper).take p.length == p

/-- A word character of the regex `\b` boundary: `[A-Za-z0-9_]`. -/
def isWordChar (c : Char) : Bool := c.isAlphanum || c == '_'

/-- `re.search(r"\bonly\b", name, IGNORECASE)`: some maximal run of word
characters of the lowercased name is exactly "only". -/
def containsWordOnly (l : List Char) : Bool :=
  ((l.map Char.toLower).splitOnP (fun c => !isWordChar c)).contains ['o','n','l','y']

/-- Medium/media detection (source line 132 and analogues): the stripped name
starts (case-insensitively) with "MED" or "CMM", or contains the standalone
word "only". -/
def isMedName (name : String) : Bool :=
  let l := stripChars name.toList
  upperStarts l ['M','E','D'] || upperStarts l ['C','M','M'] || containsWordOnly l

/-- The group's declared well ids that are columns of the data table
(`valid_well_columns_for_assay`, source lines 136-138). -/
def validCols (md : MainData) (g : SampleGroup) : List String :=
  (g.input_ids.map (fun n => String.mk (stripChars n.toList))).filter
    (fun n => md.cols.any (fun c => decide (c.1 = n)))

/-- Row labels kept by the effector mask of `determine_assay_status`
(the same mask is computed from the shared time axis for every well). -/
def maskLabels (times : List ℚ) (tref : Option ℚ) : List ℕ :=
  match tref with
  | none => List.range times.length
  | some r => (List.range times.length).filter (fun i => decide (closest_time times r ≤ timeAt times i))

/-- Cell of a well column at a row label. -/
def cellAt (v : List (Option ℚ)) (i : ℕ) : Option ℚ := (v.get? i).join

/-- A well of a medium sample enters `well_data_dict` (source lines 150-174)
iff its column has a numeric value and still has one inside the window. -/
def keepWell (md : MainData) (tref : Option ℚ) (n : String) : Bool :=
  !((colValues md n).filterMap id).isEmpty
  && (maskLabels md.times tref).any (fun i => (cellAt (colValues md n) i).isSome)

/-- The kept replicate wells of a medium group. -/
def keptWellNames (md : MainData) (tref : Option ℚ) (g : SampleGroup) : List String :=
  (validCols md g).filter (keepWell md tref)

/-- `wells_df.mean(axis=1)` (source lines 183-187): per-time-point average over
the kept wells, `none` where no well has a value. -/
def medAvgSeries (md : MainData) (tref : Option ℚ) (g : SampleGroup) : List (Option ℚ) :=
  (maskLabels md.times tref).map (fun i =>
    let row := (keptWellNames md tref g).filterMap (fun n => cellAt (colValues md n) i)
    if row.isEmpty then none else some (row.sum / (row.length : ℚ)))

/-- Overall assay status (source). -/
inductive AssayStatus
  | Pending
  | Pass
  | Fail
deriving DecidableEq

/-- Verdict of the first usable medium sample (source lines 146-200): Fail when
no well produced data, otherwise Pass iff the averaged value at the last time
point is strictly above half the maximum of the averaged series (comparisons
against NaN are false in pandas, hence the Fail fallthroughs). -/
def med_group_status (md : MainData) (tref : Option ℚ) (g : SampleGroup) : AssayStatus :=
  if (keptWellNames md tref g).isEmpty then .Fail
  else
    match ((medAvgSeries md tref g).getLast?).join, ((medAvgSeries md tref g).filterMap id).max? with
    | some l, some mx => if mx / 2 < l then .Pass else .Fail
    | some _, none => .Fail
    | none, _ => .Fail

/-- The group scan of `determine_assay_status` (source lines 113-203): the
first group from the 'Treatment' source whose name is medium-like and which has
at least one well column in the table decides the status; if the scan finds
none, the status is Fail. -/
def medLoop (md : MainData) (tref : Option ℚ) : List SampleGroup → AssayStatus
  | [] => .Fail
  | g :: rest =>
    if g.source = "Treatment" ∧ isMedName g.name then
      if (validCols md g).isEmpty then medLoop md tref rest
      else med_group_status md tref g
    else medLoop md tref rest

/-- `determine_assay_status` (source lines 100-203).  `grouping = none` models
a falsy `extracted_treatment_data`, `md = none` a missing table; `tref` is the
effector time resolved from the audit trail (or its absence). -/
def determine_assay_status (grouping : Option (List SampleGroup)) (md : Option MainData)
    (tref : Option ℚ) : AssayStatus :=
  match grouping, md with
  | none, _ => .Pending
  | some _, none => .Pending
  | some gs, some m =>
    if m.nrows = 0 then .Pending
    else if m.hasTimeCol then medLoop m tref gs
    else .Fail

/-- Positive-control validation pass (source lines 1629-1637): a selected
control (truthy, not the literal "None") whose looked-up validity is Invalid
(`some false`) forces Fail; `pv = none` models a missing stats table or row. -/
def pc_validation (status : AssayStatus) (pcName : Option String) (pv : Option Bool) : AssayStatus :=
  match pcName with
  | none => status
  | some n => if n ≠ "None" ∧ pv = some false then .Fail else status

/-- Final status step (source lines 1675-1705): the literal "None" selection
unconditionally resets the status to Pending; otherwise a selected control
re-checked as Invalid forces Fail, and anything else leaves the status alone
(the `assay_status_reason` branch at line 1686 is dead: that key is never set). -/
def final_assay_status (status : AssayStatus) (pcName : Option String) (pv : Option Bool) : AssayStatus :=
  match pcName with
  | none => status
  | some n =>
    if n = "None" then .Pending
    else match pv with
         | some false => .Fail
         | _ => status

/-- The composition the source runs once the statistics are built: the
validation pass at lines 1629-1637 followed by the finalization at 1675-1705. -/
def finalize (status : AssayStatus) (pcName : Option String) (pv : Option Bool) : AssayStatus :=
  final_assay_status (pc_validation status pcName pv) pcName pv

/-! ### Structural lemmas about windowed series -/

lemma pairwise_fst_enum (v : List (Option ℚ)) : v.enum.Pairwise (fun a b => a.1 < b.1) := by
  have h₁ : (v.enum.map Prod.fst).Pairwise (· < ·) := by
    rw [List.enum_map_fst]
    exact List.pairwise_lt_range _
  exact (List.pairwise_map).mp h₁

lemma pairwise_fst_windowed (times : List ℚ) (values : List (Option ℚ)) (tref : Option ℚ) :
    (windowed times values tref).Pairwise (fun a b => a.1 < b.1) := by
  cases tref with
  | none => exact pairwise_fst_enum values
  | some r =>
    exact List.Pairwise.sublist (List.filter_sublist _) (pairwise_fst_enum values)

lemma filter_suffix {α : Type} {p : α → Bool} :
    ∀ {l : List α}, l.Pairwise (fun a b => p a = true → p b = true) → l.filter p <:+ l := by
  intro l
  induction l with
  | nil =>
    intro _
    rw [List.filter_nil]
  | cons a t ih =>
    intro h
    rcases List.pairwise_cons.mp h with ⟨ha, ht⟩
    by_cases hpa : p a = true
    · have htt : t.filter p = t := List.filter_eq_self.mpr (fun b hb => ha b hb hpa)
      rw [List.filter_cons_of_pos hpa, htt]
    · rw [List.filter_cons_of_neg hpa]
      exact (ih ht).trans (List.suffix_cons a t)

lemma slocFrom_suffix {m : ℕ} {s : PSeries} (h : s.Pairwise (fun a b => a.1 < b.1)) :
    slocFrom m s <:+ s := by
  refine filter_suffix (h.imp ?_)
  intro a b hab hma
  exact decide_eq_true (le_trans (of_decide_eq_true hma) (le_of_lt hab))

lemma slocFrom_cons {m : ℕ} {w : Option ℚ} :
    ∀ {s : PSeries}, s.Pairwise (fun a b => a.1 < b.1) → (m, w) ∈ s →
      slocFrom m s = (m, w) :: slocFrom (m + 1) s := by
  intro s
  induction s with
  | nil => intro _ hm; cases hm
  | cons a t ih =>
    intro h hm
    rcases List.pairwise_cons.mp h with ⟨ha, ht⟩
    rcases List.mem_cons.mp hm with heq | hmt
    · subst heq
      have h₁ : t.filter (fun p => decide (m ≤ p.1)) = t :=
        List.filter_eq_self.mpr (fun b hb => decide_eq_true (le_of_lt (ha b hb)))
      have h₂ : t.filter (fun p => decide (m + 1 ≤ p.1)) = t :=
        List.filter_eq_self.mpr (fun b hb => decide_eq_true (Nat.succ_le_of_lt (ha b hb)))
      simp only [slocFrom, List.filter_cons]
      rw [if_pos (decide_eq_true (le_refl m))]
      rw [if_neg (by simp)]
      rw [h₁, h₂]
    · have halt : a.1 < m := ha _ hmt
      simp only [slocFrom, List.filter_cons]
      rw [if_neg (by simp; omega), if_neg (by simp; omega)]
      exact ih ht hmt

lemma getLast?_of_suffix {α : Type} {l₂ l₁ : List α} (h : l₂ <:+ l₁) (hne : l₂ ≠ []) :
    l₂.getLast? = l₁.getLast? := by
  rcases h with ⟨l₀, rfl⟩
  rcases List.exists_cons_of_ne_nil hne with ⟨a, t, rfl⟩
  rw [List.getLast?_append]
  cases hgl : (a :: t).getLast? with
  | none => simp [List.getLast?] at hgl
  | some x => simp [Option.or]

lemma sidxmax_spec {s : PSeries} (h : hasValue s = true) :
    sidxmax s = some (sidxmaxD s) ∧ ((sidxmaxD s), some (smaxD s)) ∈ s := by
  have hsv : svals s ≠ [] := by
    intro hnil
    rw [hasValue, hnil] at h
    simp at h
  have hmne : (svals s).max? ≠ none := by
    intro hnone
    exact hsv (List.max?_eq_none_iff.mp hnone)
  rcases Option.ne_none_iff_exists'.mp hmne with ⟨m, hm⟩
  have hmem : m ∈ svals s := List.max?_mem max_choice hm
  rcases List.mem_filterMap.mp hmem with ⟨p, hp, hp2⟩
  have hfind : (s.find? (fun q => decide (q.2 = some m))).isSome = true :=
    List.find?_isSome.mpr ⟨p, hp, decide_eq_true hp2⟩
  rcases Option.isSome_iff_exists.mp hfind with ⟨q, hq⟩
  have hq2 : q.2 = some m := by
    have hpq := List.find?_some hq
    simpa using hpq
  have hqmem : q ∈ s := List.mem_of_find?_eq_some hq
  have hsx : sidxmax s = some q.1 := by
    rw [sidxmax, hm, Option.some_bind, hq, Option.map_some']
  have hD : sidxmaxD s = q.1 := by rw [sidxmaxD, hsx, Option.getD_some]
  have hsm : smaxD s = m := by rw [smaxD, hm, Option.getD_some]
  constructor
  · rw [hsx, hD]
  · rw [hD, hsm, ← hq2, Prod.mk.eta]
    exact hqmem

lemma anyLt_ne_nil {c : ℚ} {s : PSeries} (h : anyLt c s = true) : s ≠ [] := by
  intro hnil
  rw [hnil] at h
  simp [anyLt] at h

/-- Under a true killed flag, the crossing search of the half-killing block
runs over exactly the entries strictly after the label of the maximum. -/
lemma crossing_idx_of_killed {s : PSeries} (hpw : s.Pairwise (fun a b => a.1 < b.1))
    (hk : killed_flag s = true) :
    hasValue s = true ∧
      crossing_idx s = sidxminAbsDiff (smaxD s / 2) (slocFrom (sidxmaxD s + 1) s) := by
  have hv : hasValue s = true := by
    by_contra hvf
    rw [killed_flag, if_neg hvf] at hk
    exact absurd hk Bool.false_ne_true
  have hk' : (if (sidxmaxD s : ℤ) < (s.length : ℤ) - 1 then
      anyLt (smaxD s / 2) (slocFrom (sidxmaxD s + 1) s) else false) = true := by
    rw [killed_flag, if_pos hv] at hk
    exact hk
  have hany : anyLt (smaxD s / 2) (slocFrom (sidxmaxD s + 1) s) = true := by
    by_cases hg : (sidxmaxD s : ℤ) < (s.length : ℤ) - 1
    · rw [if_pos hg] at hk'
      exact hk'
    · rw [if_neg hg] at hk'
      exact absurd hk' Bool.false_ne_true
  rcases sidxmax_spec hv with ⟨-, hmem⟩
  have hcons := slocFrom_cons hpw hmem
  rcases List.exists_cons_of_ne_nil (anyLt_ne_nil hany) with ⟨x, xs, hxs⟩
  refine ⟨hv, ?_⟩
  rw [hxs] at hcons
  simp only [crossing_idx, if_pos hv, hcons, hxs]
  simp

/-- C2: for every well classified killed = Yes, the reported half-killing time
equals the time at the post-maximum sample whose value is closest in absolute
difference to max/2 (ties broken by the earliest label, searched over all
samples strictly after the maximum) minus the time at the maximum, and the
reported closest-to-half-max time is the time at that sample. -/
theorem half_killing_time_is_closest_after_max (times : List ℚ) (values : List (Option ℚ))
    (tref : Option ℚ) (r : WellRow)
    (hr : well_calc times values tref = some r) (hk : r.killed = true) :
    ∃ m c, sidxmax (windowed times values tref) = some m ∧
      sidxminAbsDiff (smaxD (windowed times values tref) / 2)
        (slocFrom (m + 1) (windowed times values tref)) = some c ∧
      r.closestTime = some (timeAt times c) ∧
      r.halfKillingTime = some (timeAt times c - timeAt times m) := by
  set s := windowed times values tref with hs
  have hpw : s.Pairwise (fun a b => a.1 < b.1) := by
    rw [hs]
    exact pairwise_fst_windowed times values tref
  simp only [well_calc, ← hs] at hr
  by_cases hv : hasValue s = true
  · rw [if_pos hv] at hr
    cases hcx : crossing_idx s with
    | none =>
      rw [hcx] at hr
      exact absurd hr (by simp)
    | some idxC =>
      rw [hcx] at hr
      have hrr := Option.some.inj hr
      have hkf : killed_flag s = true := by
        rw [← hrr] at hk
        simpa using hk
      rcases crossing_idx_of_killed hpw hkf with ⟨-, hcr⟩
      rcases sidxmax_spec hv with ⟨hsx, -⟩
      refine ⟨sidxmaxD s, idxC, hsx, ?_, ?_, ?_⟩
      · rw [← hcr, hcx]
      · rw [← hrr]
        simp [hkf]
      · rw [← hrr]
        simp [hkf]
  · rw [if_neg hv] at hr
    have hrr := Option.some.inj hr
    rw [← hrr] at hk
    exact absurd hk (by simp)

/-- Witness for C2 at the specification's example: the series
[0.1, 0.3, 0.9, 0.95, 0.9, 0.5, 0.3, 0.6] at hours 0..7 is killed, its crossing
point is at t = 5 (value 0.5) and the half-killing time is 2.0 hours. -/
theorem half_killing_time_example :
    well_calc [0,1,2,3,4,5,6,7]
      [some (1/10), some (3/10), some (9/10), some (19/20), some (9/10), some (1/2),
        some (3/10), some (3/5)] none
      = some { killed := true, closestTime := some 5, halfKillingTime := some 2 } ∧
    (∃ m c, sidxmax (windowed [0,1,2,3,4,5,6,7]
        [some (1/10), some (3/10), some (9/10), some (19/20), some (9/10), some (1/2),
          some (3/10), some (3/5)] none) = some m ∧
      sidxminAbsDiff (smaxD (windowed [0,1,2,3,4,5,6,7]
          [some (1/10), some (3/10), some (9/10), some (19/20), some (9/10), some (1/2),
            some (3/10), some (3/5)] none) / 2)
        (slocFrom (m + 1) (windowed [0,1,2,3,4,5,6,7]
          [some (1/10), some (3/10), some (9/10), some (19/20), some (9/10), some (1/2),
            some (3/10), some (3/5)] none)) = some c ∧
      (some 5 : Option ℚ) = some (timeAt [0,1,2,3,4,5,6,7] c) ∧
      (some 2 : Option ℚ) = some (timeAt [0,1,2,3,4,5,6,7] c - timeAt [0,1,2,3,4,5,6,7] m)) :=
  ⟨by with_unfolding_all decide,
   half_killing_time_is_closest_after_max _ _ none
     { killed := true, closestTime := some 5, halfKillingTime := some 2 }
     (by with_unfolding_all decide) rfl⟩

/-- C1 (code bug evaluation): with the effector window cutting the first two
rows, the well [0.5, 0.6, 1.0, 0.2] at hours [0,1,2,3] with reference time 2
drops to 0.2 < max/2 = 0.5 strictly after its maximum (label 2), yet the
label-vs-length guard `idx_max < len(filtered) - 1` (here 2 < 1) makes the
source report killed = No with absent half-killing times. -/
theorem killed_guard_label_bug :
    well_calc [0,1,2,3] [some (1/2), some (3/5), some 1, some (1/5)] (some 2)
      = some { killed := false, closestTime := none, halfKillingTime := none } ∧
    anyLt (smaxD (windowed [0,1,2,3] [some (1/2), some (3/5), some 1, some (1/5)] (some 2)) / 2)
      (slocFrom (2 + 1) (windowed [0,1,2,3] [some (1/2), some (3/5), some 1, some (1/5)] (some 2)))
      = true ∧
    sidxmax (windowed [0,1,2,3] [some (1/2), some (3/5), some 1, some (1/5)] (some 2)) = some 2 := by
  with_unfolding_all decide

/-! ### The window selector (claim about §4.1) -/

lemma timeAt_eq_get {times : List ℚ} {i : ℕ} (h : i < times.length) :
    timeAt times i = times.get ⟨i, h⟩ := by
  rw [timeAt, List.getD_eq_get?, List.get?_eq_get h, Option.getD_some]

/-- C8: with a present effector reference, the windowed series consists exactly
of the samples whose time is ≥ the sampled timestamp closest to the reference,
it is a contiguous suffix of the original ordered series, and the cut point
itself is a member; with an absent reference the series is unchanged. -/
theorem window_selector_spec (times : List ℚ) (values : List (Option ℚ)) (tref : ℚ)
    (hlen : values.length = times.length) (hne : times ≠ [])
    (hsorted : times.Sorted (· ≤ ·)) :
    windowed times values none = values.enum
    ∧ (∀ p, p ∈ windowed times values (some tref) ↔
        p ∈ values.enum ∧ closest_time times tref ≤ timeAt times p.1)
    ∧ windowed times values (some tref) <:+ values.enum
    ∧ (∃ i, ∃ h : i < values.length, closest_idx times tref = some i ∧
        (i, values.get ⟨i, h⟩) ∈ windowed times values (some tref)) := by
  refine ⟨rfl, ?_, ?_, ?_⟩
  · intro p
    simp [windowed, List.mem_filter]
  · have hmono : (values.enum).Pairwise (fun a b =>
        (decide (closest_time times tref ≤ timeAt times a.1) = true) →
        (decide (closest_time times tref ≤ timeAt times b.1) = true)) := by
      rw [List.pairwise_iff_get]
      intro i j hij hdi
      have hgi : (values.enum.get i).1 = (i : ℕ) := by rw [List.get_enum]
      have hgj : (values.enum.get j).1 = (j : ℕ) := by rw [List.get_enum]
      have henl : values.enum.length = values.length := List.enum_length
      have hjlen : (j : ℕ) < times.length := by
        have h1 : (j : ℕ) < values.enum.length := j.isLt
        omega
      have hilen : (i : ℕ) < times.length := by
        have h1 : (i : ℕ) < values.enum.length := i.isLt
        omega
      have hle : timeAt times (values.enum.get i).1 ≤ timeAt times (values.enum.get j).1 := by
        rw [hgi, hgj, timeAt_eq_get hilen, timeAt_eq_get hjlen]
        exact List.pairwise_iff_get.mp hsorted ⟨(i : ℕ), hilen⟩ ⟨(j : ℕ), hjlen⟩
          (Fin.mk_lt_mk.mpr hij)
      exact decide_eq_true (le_trans (of_decide_eq_true hdi) hle)
    exact filter_suffix hmono
  · have htne : times.map (fun t => |t - tref|) ≠ [] := by
      intro h0
      exact hne (List.map_eq_nil.mp h0)
    have hmne : (times.map (fun t => |t - tref|)).min? ≠ none := by
      intro hnone
      exact htne (List.min?_eq_none_iff.mp hnone)
    rcases Option.ne_none_iff_exists'.mp hmne with ⟨d, hd⟩
    have hdmem : d ∈ times.map (fun t => |t - tref|) := List.min?_mem min_choice hd
    rcases List.mem_map.mp hdmem with ⟨t, ht, hdt⟩
    rcases List.mem_iff_get.mp ht with ⟨n, hn⟩
    have hensome : ((n : ℕ), t) ∈ times.enum := by
      rw [List.mem_enum_iff_get?]
      rw [List.get?_eq_get n.isLt, hn]
    have hfind : ((times.enum).find? (fun p => decide (|p.2 - tref| = d))).isSome = true := by
      refine List.find?_isSome.mpr ⟨((n : ℕ), t), hensome, decide_eq_true ?_⟩
      simpa using hdt
    rcases Option.isSome_iff_exists.mp hfind with ⟨q, hq⟩
    have hqmem : q ∈ times.enum := List.mem_of_find?_eq_some hq
    have hqlt : q.1 < times.length := by
      rw [List.mem_enum_iff_get?] at hqmem
      exact List.get?_eq_some.mp hqmem |>.1
    have hci : closest_idx times tref = some q.1 := by
      rw [closest_idx, hd, Option.some_bind, hq, Option.map_some']
    have hqltv : q.1 < values.length := by rw [hlen]; exact hqlt
    refine ⟨q.1, hqltv, hci, ?_⟩
    have hmem : (q.1, values.get ⟨q.1, hqltv⟩) ∈ values.enum := by
      rw [List.mem_enum_iff_get?]
      exact List.get?_eq_get hqltv
    rw [windowed]
    rw [List.mem_filter]
    refine ⟨hmem, decide_eq_true ?_⟩
    rw [closest_time, hci]

/-- Witness for C8: times [0, 1, 2], values [0.2, 0.4, 0.6], reference 1.6;
the closest sampled timestamp is t = 2 and the window is a suffix containing it. -/
theorem window_selector_spec_witness :
    windowed [0,1,2] [some (1/5), some (2/5), some (3/5)] none
        = ([some (1/5), some (2/5), some (3/5)] : List (Option ℚ)).enum
    ∧ windowed [0,1,2] [some (1/5), some (2/5), some (3/5)] (some (8/5))
        <:+ ([some (1/5), some (2/5), some (3/5)] : List (Option ℚ)).enum
    ∧ (∃ i, ∃ h : i < ([some (1/5), some (2/5), some (3/5)] : List (Option ℚ)).length,
        closest_idx [0,1,2] (8/5) = some i) := by
  have h := window_selector_spec [0,1,2] [some (1/5), some (2/5), some (3/5)] (8/5)
    (by with_unfolding_all decide) (by with_unfolding_all decide) (by with_unfolding_all decide)
  refine ⟨h.1, h.2.2.1, ?_⟩
  rcases h.2.2.2 with ⟨i, hi, hci, -⟩
  exact ⟨i, hi, hci⟩

/-! ### CV degeneracy (claim about the %CV column) -/

lemma all_zero_of_sum_zero {l : List ℚ} (h0 : ∀ x ∈ l, 0 ≤ x) (hs : l.sum = 0) :
    ∀ x ∈ l, x = 0 := by
  induction l with
  | nil => simp
  | cons a t ih =>
    simp only [List.sum_cons] at hs
    have hta : 0 ≤ a := h0 a (List.mem_cons_self a t)
    have htt : 0 ≤ t.sum := List.sum_nonneg (fun x hx => h0 x (List.mem_cons_of_mem a hx))
    have ha0 : a = 0 := le_antisymm (by linarith) hta
    have hts : t.sum = 0 := by linarith
    intro x hx
    rcases List.mem_cons.mp hx with rfl | hxt
    · exact ha0
    · exact ih (fun y hy => h0 y (List.mem_cons_of_mem a hy)) hts x hxt

/-- C9: the reported CV% is 0 whenever the standard deviation is 0 or undefined
(fewer than two contributing values), independently of the mean; and over
non-negative half-killing times the reported value is always a finite number
(never NaN; the computation is a total function, so no exception either). -/
theorem cv_zero_when_std_degenerate (vals : List ℚ) (hpos : ∀ x ∈ vals, 0 ≤ x) :
    (cv_reported_sq (sampleMean vals) (sampleVar vals)).isSome = true
    ∧ (∀ mean : Option ℚ, sampleVar vals = none ∨ sampleVar vals = some 0 →
        cv_reported_sq mean (sampleVar vals) = some 0)
    ∧ (vals.length = 1 → cv_reported_sq (sampleMean vals) (sampleVar vals) = some 0) := by
  have hpart2 : ∀ mean : Option ℚ, sampleVar vals = none ∨ sampleVar vals = some 0 →
      cv_reported_sq mean (sampleVar vals) = some 0 := by
    intro mean h
    rcases h with h | h <;> rw [h] <;> simp [cv_reported_sq]
  have hpart3 : vals.length = 1 → cv_reported_sq (sampleMean vals) (sampleVar vals) = some 0 := by
    intro h1
    refine hpart2 _ (Or.inl ?_)
    rw [sampleVar, if_pos (by omega)]
  refine ⟨?_, hpart2, hpart3⟩
  cases hvar : sampleVar vals with
  | none => simp [cv_reported_sq]
  | some V =>
    by_cases hV : V = 0
    · simp [cv_reported_sq, hV]
    · have hlen2 : ¬ vals.length < 2 := by
        intro hl
        rw [sampleVar, if_pos hl] at hvar
        cases hvar
      have hnnil : vals ≠ [] := by
        intro h0
        rw [h0] at hlen2
        simp at hlen2
      have hlq : (vals.length : ℚ) ≠ 0 := Nat.cast_ne_zero.mpr (by omega)
      have hmean : sampleMean vals = some (vals.sum / (vals.length : ℚ)) := by
        rcases List.exists_cons_of_ne_nil hnnil with ⟨a, t, rfl⟩
        rw [sampleMean]
        simp
      have hsum : vals.sum ≠ 0 := by
        intro hs
        apply hV
        have hall := all_zero_of_sum_zero hpos hs
        have hv0 : sampleVar vals = some 0 := by
          rw [sampleVar, if_neg hlen2]
          have hmap : (vals.map (fun x => (x - vals.sum / (vals.length : ℚ))^2)).sum = 0 := by
            apply List.sum_eq_zero
            intro y hy
            rcases List.mem_map.mp hy with ⟨x, hx, rfl⟩
            rw [hall x hx, hs]
            norm_num
          rw [hmap, zero_div]
        rw [hvar] at hv0
        exact Option.some.inj hv0
      have hM : vals.sum / (vals.length : ℚ) ≠ 0 := by
        rw [div_ne_zero_iff]
        exact ⟨hsum, hlq⟩
      simp [cv_reported_sq, hV, hmean, hM]

/-- Witness for C9: a sample with the single half-killing time 7 has an
undefined std and a reported CV% of 0. -/
theorem cv_zero_when_std_degenerate_witness :
    (∀ x ∈ [(7 : ℚ)], 0 ≤ x) ∧
    cv_reported_sq (sampleMean [(7 : ℚ)]) (sampleVar [(7 : ℚ)]) = some 0 :=
  ⟨by norm_num, (cv_zero_when_std_degenerate [(7 : ℚ)] (by norm_num)).2.2 rfl⟩

/-! ### The assay-status scan and finalization -/

/-- A group that seizes control of `determine_assay_status`: 'Treatment'
source, medium-like name, and at least one well column in the table. -/
def activeMed (md : MainData) (g : SampleGroup) : Bool :=
  (decide (g.source = "Treatment") && isMedName g.name) && !(validCols md g).isEmpty

lemma medLoop_cons_inactive (md : MainData) (tref : Option ℚ) (g : SampleGroup)
    (rest : List SampleGroup) (hg : activeMed md g = false) :
    medLoop md tref (g :: rest) = medLoop md tref rest := by
  rw [medLoop]
  by_cases hc : g.source = "Treatment" ∧ isMedName g.name = true
  · rw [if_pos hc]
    have hemp : (validCols md g).isEmpty = true := by
      rcases Bool.and_eq_false_iff.mp hg with h | h
      · exfalso
        rcases Bool.and_eq_false_iff.mp h with h' | h'
        · exact absurd (decide_eq_true hc.1) (by rw [h']; exact Bool.false_ne_true)
        · exact absurd hc.2 (by rw [h']; exact Bool.false_ne_true)
      · simpa using h
    rw [if_pos hemp]
  · rw [if_neg hc]

lemma medLoop_cons_active (md : MainData) (tref : Option ℚ) (g : SampleGroup)
    (rest : List SampleGroup) (hg : activeMed md g = true) :
    medLoop md tref (g :: rest) = med_group_status md tref g := by
  rcases Bool.and_eq_true_iff.mp hg with ⟨h1, hemp⟩
  rcases Bool.and_eq_true_iff.mp h1 with ⟨hsrc, hmed⟩
  rw [medLoop, if_pos ⟨of_decide_eq_true hsrc, hmed⟩,
    if_neg (by simpa using hemp)]

lemma medLoop_first_active (md : MainData) (tref : Option ℚ) :
    ∀ {pre : List SampleGroup} {g : SampleGroup} {post : List SampleGroup},
      (∀ g' ∈ pre, activeMed md g' = false) → activeMed md g = true →
      medLoop md tref (pre ++ g :: post) = med_group_status md tref g := by
  intro pre
  induction pre with
  | nil =>
    intro g post _ hg
    rw [List.nil_append]
    exact medLoop_cons_active md tref g post hg
  | cons p pre' ih =>
    intro g post hpre hg
    rw [List.cons_append,
      medLoop_cons_inactive md tref p _ (hpre p (List.mem_cons_self p pre'))]
    exact ih (fun g' h' => hpre g' (List.mem_cons_of_mem p h')) hg

lemma med_group_status_ne_pending (md : MainData) (tref : Option ℚ) (g : SampleGroup) :
    med_group_status md tref g ≠ .Pending := by
  rw [med_group_status]
  split
  · simp
  · split
    · split <;> simp
    · simp
    · simp

lemma medLoop_no_med (md : MainData) (tref : Option ℚ) :
    ∀ {gs : List SampleGroup}, (∀ g ∈ gs, isMedName g.name = false) →
      medLoop md tref gs = .Fail := by
  intro gs
  induction gs with
  | nil => intro _; rfl
  | cons g rest ih =>
    intro h
    rw [medLoop, if_neg ?_]
    · exact ih (fun g' h' => h g' (List.mem_cons_of_mem g h'))
    · intro hc
      exact absurd hc.2 (by rw [h g (List.mem_cons_self g rest)]; exact Bool.false_ne_true)

lemma finalize_pass_of {s : AssayStatus} {pc : Option String} {pv : Option Bool}
    (h : finalize s pc pv = .Pass) : s = .Pass := by
  rw [finalize] at h
  cases pc with
  | none => simpa [final_assay_status, pc_validation] using h
  | some n =>
    simp only [final_assay_status] at h
    by_cases hn : n = "None"
    · rw [if_pos hn] at h
      cases h
    · rw [if_neg hn] at h
      cases hpv : pv with
      | none =>
        rw [hpv] at h
        simp [pc_validation, hn] at h
        exact h
      | some b =>
        cases b with
        | false =>
          rw [hpv] at h
          simp at h
        | true =>
          rw [hpv] at h
          simp [pc_validation, hn] at h
          exact h

lemma determine_no_med_ne_pass (gs : List SampleGroup) (md : Option MainData)
    (tref : Option ℚ) (h : ∀ g ∈ gs, isMedName g.name = false) :
    determine_assay_status (some gs) md tref ≠ .Pass := by
  cases md with
  | none => rw [determine_assay_status]; simp
  | some m =>
    rw [determine_assay_status]
    by_cases hr : m.nrows = 0
    · rw [if_pos hr]; simp
    · rw [if_neg hr]
      by_cases ht : m.hasTimeCol = true
      · rw [if_pos ht, medLoop_no_med m tref h]
        simp
      · rw [if_neg ht]
        simp

lemma medAvg_last_none_of_kept_empty (md : MainData) (tref : Option ℚ) (g : SampleGroup)
    (hk : (keptWellNames md tref g).isEmpty = true) :
    ((medAvgSeries md tref g).getLast?).join = none := by
  have hknil : keptWellNames md tref g = [] := by simpa using hk
  have hall : ∀ x ∈ medAvgSeries md tref g, x = (none : Option ℚ) := by
    intro x hx
    rcases List.mem_map.mp hx with ⟨i, -, hxe⟩
    rw [hknil] at hxe
    simpa using hxe.symm
  cases hgl : (medAvgSeries md tref g).getLast? with
  | none => rfl
  | some x =>
    rcases List.mem_getLast?_eq_getLast hgl with ⟨hne', hxg⟩
    have hxmem : x ∈ medAvgSeries md tref g := hxg ▸ List.getLast_mem hne'
    rw [hall x hxmem]
    rfl

/-- C10: `determine_assay_status` is decided entirely by the first
'Treatment'-sourced medium/media-only group with a well column in the table:
the result is that group's verdict alone (Pass or Fail, never Pending), so the
groups after it have no effect. -/
theorem first_med_group_decides (md : MainData) (tref : Option ℚ)
    (pre post : List SampleGroup) (g : SampleGroup)
    (hrows : md.nrows ≠ 0) (htime : md.hasTimeCol = true)
    (hpre : ∀ g' ∈ pre, activeMed md g' = false) (hg : activeMed md g = true) :
    determine_assay_status (some (pre ++ g :: post)) (some md) tref
      = med_group_status md tref g
    ∧ med_group_status md tref g ≠ .Pending := by
  constructor
  · rw [determine_assay_status, if_neg hrows, if_pos htime]
    exact medLoop_first_active md tref hpre hg
  · exact med_group_status_ne_pending md tref g

/-- Witness for C10: with a non-medium group first, a medium group second and a
further medium group last, the status equals the second group's verdict. -/
theorem first_med_group_decides_witness :
    determine_assay_status
      (some [⟨"SAMPLE1", "Treatment", ["W1"]⟩, ⟨"Medium only", "Treatment", ["W2"]⟩,
             ⟨"MED2", "Treatment", ["W1"]⟩])
      (some ⟨2, true, [0, 1], [("W1", [some 4, some 1]), ("W2", [some 2, some 2])]⟩) none
      = med_group_status ⟨2, true, [0, 1], [("W1", [some 4, some 1]), ("W2", [some 2, some 2])]⟩
          none ⟨"Medium only", "Treatment", ["W2"]⟩ :=
  (first_med_group_decides
    ⟨2, true, [0, 1], [("W1", [some 4, some 1]), ("W2", [some 2, some 2])]⟩ none
    [⟨"SAMPLE1", "Treatment", ["W1"]⟩] [⟨"MED2", "Treatment", ["W1"]⟩]
    ⟨"Medium only", "Treatment", ["W2"]⟩
    (by with_unfolding_all decide) (by with_unfolding_all decide)
    (by with_unfolding_all decide) (by with_unfolding_all decide)).1

/-- C3: the negative-control criterion averages the effector-windowed replicate
wells of the first usable medium/media-only group row-wise and passes iff the
averaged value at the final time point strictly exceeds half the maximum of the
averaged series; and with no medium/media-only group in the grouping at all the
criterion fails, so the overall status never reaches Pass. -/
theorem negative_control_criterion :
    (∀ (md : MainData) (tref : Option ℚ) (pre post : List SampleGroup) (g : SampleGroup)
        (l mx : ℚ),
      md.nrows ≠ 0 → md.hasTimeCol = true →
      (∀ g' ∈ pre, activeMed md g' = false) → activeMed md g = true →
      ((medAvgSeries md tref g).getLast?).join = some l →
      ((medAvgSeries md tref g).filterMap id).max? = some mx →
      (determine_assay_status (some (pre ++ g :: post)) (some md) tref = .Pass ↔ mx / 2 < l))
    ∧ (∀ (gs : List SampleGroup) (md : Option MainData) (tref : Option ℚ)
        (pc : Option String) (pv : Option Bool),
      (∀ g ∈ gs, isMedName g.name = false) →
      determine_assay_status (some gs) md tref ≠ .Pass
      ∧ finalize (determine_assay_status (some gs) md tref) pc pv ≠ .Pass) := by
  constructor
  · intro md tref pre post g l mx hrows htime hpre hg hlast hmax
    rw [determine_assay_status, if_neg hrows, if_pos htime,
      medLoop_first_active md tref hpre hg]
    rw [med_group_status]
    have hkept : ¬ (keptWellNames md tref g).isEmpty = true := by
      intro hk
      rw [medAvg_last_none_of_kept_empty md tref g hk] at hlast
      cases hlast
    rw [if_neg hkept, hlast, hmax]
    by_cases hc : mx / 2 < l
    · simp [hc]
    · simp [hc]
  · intro gs md tref pc pv h
    have hnp := determine_no_med_ne_pass gs md tref h
    refine ⟨hnp, ?_⟩
    intro hf
    exact hnp (finalize_pass_of hf)

/-- Witness for C3: a medium-only group of two wells whose averaged series is
[3, 2] (maximum 3, last value 2) passes since 2 > 3/2; and a grouping whose
only group is non-medium never yields Pass. -/
theorem negative_control_criterion_witness :
    (determine_assay_status
        (some [⟨"Medium only", "Treatment", ["W1", "W2"]⟩])
        (some ⟨2, true, [0, 1], [("W1", [some 4, some 1]), ("W2", [some 2, some 3])]⟩) none
          = .Pass
      ↔ (3 : ℚ) / 2 < 2)
    ∧ determine_assay_status (some [⟨"SAMPLE1", "Treatment", ["W1"]⟩])
        (some ⟨2, true, [0, 1], [("W1", [some 4, some 1])]⟩) none ≠ .Pass :=
  ⟨(negative_control_criterion.1
      ⟨2, true, [0, 1], [("W1", [some 4, some 1]), ("W2", [some 2, some 3])]⟩ none
      [] [] ⟨"Medium only", "Treatment", ["W1", "W2"]⟩ 2 3
      (by with_unfolding_all decide) (by with_unfolding_all decide)
      (by intro g' h'; cases h') (by with_unfolding_all decide)
      (by with_unfolding_all decide) (by with_unfolding_all decide)),
   (negative_control_criterion.2
      [⟨"SAMPLE1", "Treatment", ["W1"]⟩]
      (some ⟨2, true, [0, 1], [("W1", [some 4, some 1])]⟩) none none none
      (by with_unfolding_all decide)).1⟩

/-- C5 (counterexample): a status already at Fail (e.g. from the
negative-control criterion) is replaced by Pending when the positive-control
selection is the literal "None". -/
theorem fail_overridden_by_none_pc :
    finalize .Fail (some "None") none = .Pending ∧ AssayStatus.Pending ≠ .Fail := by
  with_unfolding_all decide

/-- C5 (amended): within one evaluation pass a raised Fail is never replaced by
Pass, and every later criterion except one preserves it — the single exception
is the no-positive-control-selected case (literal "None"), which resets any
status, including Fail, to Pending. -/
theorem fail_permanence_except_none_pc (s : AssayStatus) (pc : Option String)
    (pv : Option Bool) :
    (finalize s pc pv = .Pass → s = .Pass)
    ∧ (s = .Fail → pc ≠ some "None" → finalize s pc pv = .Fail)
    ∧ (s = .Fail → pc = some "None" → finalize s pc pv = .Pending) := by
  refine ⟨fun h => finalize_pass_of h, ?_, ?_⟩
  · intro hs hpc
    subst hs
    rw [finalize]
    cases pc with
    | none => simp [final_assay_status, pc_validation]
    | some n =>
      have hn : n ≠ "None" := by
        intro h0
        exact hpc (by rw [h0])
      simp only [final_assay_status, if_neg hn]
      cases hpv : pv with
      | none => simp [pc_validation]
      | some b =>
        cases b with
        | false => simp
        | true => simp [pc_validation]
  · intro hs hpc
    subst hs
    rw [hpc, finalize]
    simp [final_assay_status]

/-- Witness for the amended C5: a Fail with a selected, valid positive control
stays Fail; a Fail with no selected control becomes Pending. -/
theorem fail_permanence_except_none_pc_witness :
    finalize .Fail (some "PC1") (some true) = .Fail
    ∧ finalize .Fail (some "None") (some true) = .Pending :=
  ⟨(fail_permanence_except_none_pc .Fail (some "PC1") (some true)).2.1 rfl
      (by with_unfolding_all decide),
   (fail_permanence_except_none_pc .Fail (some "None") (some true)).2.2 rfl rfl⟩

/-- C6 (counterexample): grouping data present and a non-empty main table with
no "Time (Hour)" column yields AssayStatus Fail, not Pending. -/
theorem missing_time_axis_is_fail :
    determine_assay_status (some [⟨"S1", "Treatment", ["W1"]⟩])
      (some ⟨1, false, [], [("W1", [some 1])]⟩) none = .Fail
    ∧ AssayStatus.Fail ≠ .Pending := by
  with_unfolding_all decide

/-- C6 (amended): with sample grouping data and a non-empty main table but no
"Time (Hour)" column, the status is reported as Fail (it is a total function —
no exception); a missing table or missing grouping still surfaces as Pending. -/
theorem missing_time_axis_gives_fail (gs : List SampleGroup) (md : MainData)
    (tref : Option ℚ) (htc : md.hasTimeCol = false) (hrows : md.nrows ≠ 0) :
    determine_assay_status (some gs) (some md) tref = .Fail
    ∧ determine_assay_status none (some md) tref = .Pending
    ∧ determine_assay_status (some gs) none tref = .Pending := by
  refine ⟨?_, rfl, rfl⟩
  rw [determine_assay_status, if_neg hrows, if_neg (by simp [htc])]

/-- Witness for the amended C6. -/
theorem missing_time_axis_gives_fail_witness :
    determine_assay_status (some [⟨"Medium only", "Treatment", ["W1"]⟩])
      (some ⟨2, false, [], [("W1", [some 1, some 2])]⟩) none = .Fail :=
  (missing_time_axis_gives_fail [⟨"Medium only", "Treatment", ["W1"]⟩]
    ⟨2, false, [], [("W1", [some 1, some 2])]⟩ none rfl (by with_unfolding_all decide)).1

/-- C7 (counterexample): for an unknown assay type the per-well computation is
not skipped: the well [1, 0.2] has a value equal to 1, so the legacy fallback
(target 0.5) runs and produces a summary row (killed = No), which enters the
kill statistics — there is no "not computable" marker. -/
theorem unknown_type_produces_row :
    well_calc_unknown [0, 1] [some 1, some (1/5)] none
      = some { killed := false, closestTime := none, halfKillingTime := none } := by
  with_unfolding_all decide

/-- C7 (amended): for an unknown assay type the source falls back to the legacy
value-1/target-0.5 logic: a well either produces no summary row at all (no
marker of any kind), or produces a row with killed = No and absent half-killing
times — and a row is produced only when some windowed sample has value exactly
1 (the trigger of the substituted 0.5 target). -/
theorem unknown_type_fallback (times : List ℚ) (values : List (Option ℚ)) (tref : Option ℚ) :
    well_calc_unknown times values tref = none
    ∨ (well_calc_unknown times values tref
        = some { killed := false, closestTime := none, halfKillingTime := none }
       ∧ ∃ p ∈ windowed times values tref, p.2 = some 1) := by
  rw [well_calc_unknown]
  cases hf : (windowed times values tref).find? (fun p => decide (p.2 = some 1)) with
  | none =>
    left
    rfl
  | some q =>
    have hq2 : q.2 = some 1 := by simpa using List.find?_some hf
    have hqmem : q ∈ windowed times values tref := List.mem_of_find?_eq_some hf
    simp only [Option.map_some']
    by_cases hemp : ((slocFrom q.1 (windowed times values tref)).tail).isEmpty = true
    · left
      rw [if_pos hemp]
    · rw [if_neg hemp]
      cases hsd : sidxminAbsDiff (1/2) ((slocFrom q.1 (windowed times values tref)).tail) with
      | none => left; rfl
      | some c => right; exact ⟨rfl, q, hqmem, hq2⟩

/-! ### Sample validity (kill summary, CV, mean time, recovery) -/

lemma sidxmax_none_of_no_value {s : PSeries} (hv : ¬ hasValue s = true) :
    sidxmax s = none := by
  have hsv : svals s = [] := by
    rcases hsvn : svals s with _ | ⟨a, t⟩
    · rfl
    · exact absurd (by rw [hasValue, hsvn]; rfl) hv
  rw [sidxmax, hsv]
  rfl

/-- The recovery check reported by the source equals the specification's
formulation: some value strictly after the well's own maximum drops below the
well's own half-max, and the value at the final sample of the windowed series
is strictly above that same half-max. -/
lemma has_recovery_iff (times : List ℚ) (values : List (Option ℚ)) (tref : Option ℚ) :
    has_recovery times values tref = true ↔
      (∃ m, sidxmax (windowed times values tref) = some m ∧
        anyLt (smaxD (windowed times values tref) / 2)
          (slocFrom (m + 1) (windowed times values tref)) = true ∧
        (∃ lv, lastCell (windowed times values tref) = some lv ∧
          smaxD (windowed times values tref) / 2 < lv)) := by
  set s := windowed times values tref with hs
  have hpw : s.Pairwise (fun a b => a.1 < b.1) := by
    rw [hs]
    exact pairwise_fst_windowed times values tref
  by_cases hv : hasValue s = true
  · rcases sidxmax_spec hv with ⟨hsx, hmem⟩
    have hcons := slocFrom_cons hpw hmem
    simp only [has_recovery, ← hs, if_pos hv]
    rcases hrest : slocFrom (sidxmaxD s + 1) s with _ | ⟨x, xs⟩
    · rw [hrest] at hcons
      rw [hcons]
      simp only [List.length_cons, List.length_nil]
      rw [if_pos (by omega : (1:ℕ) ≤ 0 + 1)]
      rw [if_neg (by omega : ¬ (1:ℕ) < 0 + 1)]
      rw [if_neg (by simp : ¬ ([(sidxmaxD s, some (smaxD s))] : PSeries).isEmpty = true)]
      constructor
      · intro h
        rcases Bool.and_eq_true_iff.mp h with ⟨h1, h2⟩
        have hlt : smaxD s < smaxD s / 2 := by
          simpa [anyLt] using h1
        have hgt : smaxD s / 2 < smaxD s := by
          simpa [lastCell] using h2
        exact absurd hgt (lt_asymm hlt)
      · rintro ⟨m, hm, hany, -⟩
        have hmeq : m = sidxmaxD s := by
          rw [hsx] at hm
          exact (Option.some.inj hm).symm
        rw [hmeq, hrest] at hany
        simp [anyLt] at hany
    · rw [hrest] at hcons
      have hsuf : (x :: xs : PSeries) <:+ s := by
        rw [← hrest]
        exact slocFrom_suffix hpw
      have hlasteq : lastCell (x :: xs) = lastCell s := by
        rw [lastCell, lastCell, getLast?_of_suffix hsuf (by simp)]
      rw [hcons]
      simp only [List.length_cons]
      rw [if_pos (by omega : (1:ℕ) ≤ xs.length + 1 + 1)]
      rw [if_pos (by omega : (1:ℕ) < xs.length + 1 + 1)]
      rw [List.tail_cons]
      rw [if_neg (by simp : ¬ ((x :: xs : PSeries)).isEmpty = true)]
      constructor
      · intro h
        rcases Bool.and_eq_true_iff.mp h with ⟨h1, h2⟩
        refine ⟨sidxmaxD s, hsx, by rw [hrest]; exact h1, ?_⟩
        cases hlc : lastCell (x :: xs) with
        | none => rw [hlc] at h2; cases h2
        | some lv =>
          rw [hlc] at h2
          refine ⟨lv, by rw [← hlasteq, hlc], ?_⟩
          simpa using h2
      · rintro ⟨m, hm, hany, lv, hlv, hgt⟩
        have hmeq : m = sidxmaxD s := by
          rw [hsx] at hm
          exact (Option.some.inj hm).symm
        rw [hmeq, hrest] at hany
        refine Bool.and_eq_true_iff.mpr ⟨hany, ?_⟩
        rw [hlasteq, hlv]
        simpa using hgt
  · simp only [has_recovery, ← hs, if_neg hv]
    constructor
    · intro h
      cases h
    · rintro ⟨m, hm, -⟩
      rw [sidxmax_none_of_no_value hv] at hm
      cases hm

lemma roundHalfEven_ge_3001_iff (y : ℚ) : 3001 ≤ roundHalfEven y ↔ 6001/2 < y := by
  have hfl : (⌊y⌋ : ℚ) ≤ y := Int.floor_le y
  have hfu : y < ⌊y⌋ + 1 := Int.lt_floor_add_one y
  rw [roundHalfEven]
  split_ifs with h1 h2 h3
  · constructor
    · intro h
      have h4 : (3001:ℚ) ≤ (⌊y⌋:ℚ) := by exact_mod_cast h
      linarith
    · intro h
      have h4 : (3000:ℚ) < (⌊y⌋:ℚ) := by linarith
      have h5 : (3000:ℤ) < ⌊y⌋ := by exact_mod_cast h4
      omega
  · constructor
    · intro h
      have h4 : (3001:ℚ) ≤ (⌊y⌋:ℚ) + 1 := by exact_mod_cast h
      linarith
    · intro h
      have h4 : (2999:ℚ) < (⌊y⌋:ℚ) := by linarith
      have h5 : (2999:ℤ) < ⌊y⌋ := by exact_mod_cast h4
      omega
  · have htie : y - ⌊y⌋ = 1/2 := le_antisymm (not_lt.mp h2) (not_lt.mp h1)
    constructor
    · intro h
      have h4 : (3001:ℚ) ≤ (⌊y⌋:ℚ) := by exact_mod_cast h
      linarith
    · intro h
      have h4 : (3000:ℚ) < (⌊y⌋:ℚ) := by linarith
      have h5 : (3000:ℤ) < ⌊y⌋ := by exact_mod_cast h4
      omega
  · have htie : y - ⌊y⌋ = 1/2 := le_antisymm (not_lt.mp h2) (not_lt.mp h1)
    constructor
    · intro h
      have h4 : 3001 ≤ ⌊y⌋ := by omega
      have h5 : (3001:ℚ) ≤ (⌊y⌋:ℚ) := by exact_mod_cast h4
      linarith
    · intro h
      have h4 : (3000:ℚ) < (⌊y⌋:ℚ) := by linarith
      have h5 : (3000:ℤ) < ⌊y⌋ := by exact_mod_cast h4
      omega

/-- Characterization of the rounded-CV test of line 1536: the 2-decimal-rounded
value exceeds 30 exactly when the unrounded value exceeds 30.005 (the tie
30.005 itself rounds to 30.00, half to even, and every larger value rounds to
at least 30.01).  This is the monotone threshold `cv_fail` encodes after
squaring for the irrational `std = √variance`. -/
lemma round2_gt_30_iff (c : ℚ) : 30 < round2 c ↔ 6001/200 < c := by
  have h100 : (0:ℚ) < 100 := by norm_num
  rw [round2]
  constructor
  · intro h
    rw [lt_div_iff h100] at h
    have h2 : (3000:ℤ) < roundHalfEven (c * 100) := by exact_mod_cast h
    have h4 := (roundHalfEven_ge_3001_iff (c * 100)).mp (by omega)
    linarith
  · intro h
    have h3 : 3001 ≤ roundHalfEven (c * 100) :=
      (roundHalfEven_ge_3001_iff (c * 100)).mpr (by linarith)
    have h4 : (3001:ℚ) ≤ (roundHalfEven (c * 100) : ℚ) := by exact_mod_cast h3
    rw [lt_div_iff h100]
    linarith

/-- C4: a sample's verdict is Valid iff all four conditions hold — kill summary
"All Yes", the CV% criterion passes (the reported 2-decimal-rounded CV% is
≤ 30, i.e. the Fail flag of line 1536 is off), the reported 2-decimal-rounded
mean half-killing time is ≤ 12 hours, and no replicate well recovers: no well
drops below half of its own maximum after that maximum while its value at the
final sample of the windowed series is strictly above that same half-max. -/
theorem sample_validity_criteria (times : List ℚ) (tref : Option ℚ)
    (wells : List (List (Option ℚ))) :
    sample_valid times tref wells = true ↔
      (killSummary (sampleRows times tref wells) = "All Yes"
       ∧ cv_fail (sampleMean (halfVals (sampleRows times tref wells)))
           (sampleVar (halfVals (sampleRows times tref wells))) = false
       ∧ (∃ a, sampleMean (halfVals (sampleRows times tref wells)) = some a ∧ round2 a ≤ 12)
       ∧ (∀ v ∈ wells, ¬ (∃ m, sidxmax (windowed times v tref) = some m ∧
            anyLt (smaxD (windowed times v tref) / 2)
              (slocFrom (m + 1) (windowed times v tref)) = true ∧
            (∃ lv, lastCell (windowed times v tref) = some lv ∧
              smaxD (windowed times v tref) / 2 < lv)))) := by
  constructor
  · intro h
    simp only [sample_valid, Bool.and_eq_true_iff, Bool.not_eq_true', decide_eq_true_eq] at h
    obtain ⟨⟨⟨hks, hcv⟩, hmean⟩, hrec⟩ := h
    refine ⟨hks, hcv, ?_, ?_⟩
    · cases hme : sampleMean (halfVals (sampleRows times tref wells)) with
      | none =>
        rw [hme] at hmean
        cases hmean
      | some a =>
        rw [hme] at hmean
        exact ⟨a, rfl, by simpa using hmean⟩
    · intro v hvmem hspec
      have hrv : has_recovery times v tref = true := (has_recovery_iff times v tref).mpr hspec
      have h2 : (wells.any (fun v => has_recovery times v tref)) = true :=
        List.any_eq_true.mpr ⟨v, hvmem, hrv⟩
      rw [hrec] at h2
      cases h2
  · rintro ⟨hks, hcv, ⟨a, hme, ha⟩, hrec⟩
    simp only [sample_valid, Bool.and_eq_true_iff, Bool.not_eq_true', decide_eq_true_eq]
    refine ⟨⟨⟨hks, hcv⟩, ?_⟩, ?_⟩
    · rw [hme]
      simpa using ha
    · rw [Bool.eq_false_iff]
      intro hany
      rcases List.any_eq_true.mp hany with ⟨v, hvm, hv⟩
      exact hrec v hvm ((has_recovery_iff times v tref).mp hv)

/-- Witness for C4: one replicate [4, 1, 1] at hours [0, 1, 2] — killed (drops
below 2 after the max), rounded half-killing time mean 1.00 ≤ 12, single
replicate (CV = 0), final value 1 not above half-max 2, hence Valid. -/
theorem sample_validity_criteria_witness :
    killSummary (sampleRows [0,1,2] none [[some 4, some 1, some 1]]) = "All Yes"
    ∧ cv_fail (sampleMean (halfVals (sampleRows [0,1,2] none [[some 4, some 1, some 1]])))
        (sampleVar (halfVals (sampleRows [0,1,2] none [[some 4, some 1, some 1]]))) = false
    ∧ (∃ a, sampleMean (halfVals (sampleRows [0,1,2] none [[some 4, some 1, some 1]])) = some a
        ∧ round2 a ≤ 12)
    ∧ (∀ v ∈ [[some 4, some 1, some 1]], ¬ (∃ m, sidxmax (windowed [0,1,2] v none) = some m ∧
        anyLt (smaxD (windowed [0,1,2] v none) / 2)
          (slocFrom (m + 1) (windowed [0,1,2] v none)) = true ∧
        (∃ lv, lastCell (windowed [0,1,2] v none) = some lv ∧
          smaxD (windowed [0,1,2] v none) / 2 < lv))) :=
  (sample_validity_criteria [0,1,2] none [[some 4, some 1, some 1]]).mp
    (by with_unfolding_all decide)
